import Mathlib

/-!
Verification of the trace-comparison engine of
tests/e2e/lib/resize_storm_differential.py: signature extraction,
structural diffing, divergence classification and verdict aggregation.
The Python code is shallowly embedded: dicts of heterogeneous JSON
scalars become association lists over an inductive scalar-value type,
Python lists become Lean lists, and the fallible extractor returns
Except.  Python ints are modelled as Int (traces carry small integers,
so overflow-free Int is the faithful model of Python's arbitrary
precision integers).
-/

namespace ResizeStorm

/-- A JSON scalar value as it appears in a raw trace event.  JSON
arrays and objects are collapsed into the single constructor
JVal.other: the differential checker never inspects their contents
(it only ever compares event values against string constants, and
int()/str coercion treats every composite value the same way, namely
as a coercion failure). -/
inductive JVal : Type where
  | null : JVal
  | bool : Bool → JVal
  | int : Int → JVal
  | str : String → JVal
  | other : JVal
deriving DecidableEq, Repr

/-- A raw trace event: a JSON object, i.e. a finite map from string
keys to values, modelled as an association list with first-key-wins
lookup (Python dict keys are unique, so lookup order is immaterial). -/
abbrev RawEvent : Type := List (String × JVal)

/-- Python's event.get(key): the value bound to the key, or None
(modelled by Option.none) when the key is absent. -/
def eget (e : RawEvent) (k : String) : Option JVal :=
  (e.find? (fun p => p.1 == k)).map (fun p => p.2)

/-- Whitespace as stripped by Python str.strip() (the ASCII core;
traces and rule files are ASCII). -/
def isPySpace (c : Char) : Bool :=
  c == ' ' || c == '\t' || c == '\n' || c == '\r' || c == '\x0b' || c == '\x0c'

/-- Python str.strip(): drop leading and trailing whitespace. -/
def stripChars (cs : List Char) : List Char :=
  ((cs.dropWhile isPySpace).reverse.dropWhile isPySpace).reverse

/-- Python str.strip() on a String. -/
def pyStrip (s : String) : String :=
  String.mk (stripChars s.data)

/-- Decimal digit run as accepted by Python int(str) after the optional
sign: nonempty, made of digits with single underscores strictly between
digits. -/
def digitsTail : List Char → Bool
  | [] => true
  | '_' :: c :: rest => c.isDigit && digitsTail (c :: rest)
  | '_' :: [] => false
  | c :: rest => c.isDigit && digitsTail rest

/-- The whole digit run: must start with a digit. -/
def digitsOk : List Char → Bool
  | [] => false
  | c :: rest => c.isDigit && digitsTail (c :: rest)

/-- Numeric value of a digit run, underscores skipped. -/
def digitsVal (cs : List Char) : Nat :=
  cs.foldl (fun acc c => if c == '_' then acc else acc * 10 + (c.toNat - 48)) 0

/-- Python int(s) on a string: strip whitespace, optional sign, decimal
digits (base-10 core of CPython's int; non-ASCII digit forms are out of
scope for these traces).  None models the ValueError branch. -/
def pyIntOfString (s : String) : Option Int :=
  match stripChars s.data with
  | '-' :: rest => if digitsOk rest then some (-(digitsVal rest : Int)) else none
  | '+' :: rest => if digitsOk rest then some ((digitsVal rest : Int)) else none
  | rest => if digitsOk rest then some ((digitsVal rest : Int)) else none

/-- The source's _as_int accessor: int(value), with TypeError/ValueError
falling back to the default -1.  int() passes ints through, converts
booleans to 0/1, parses numeric strings, and raises on None, non-numeric
strings and composite values. -/
def _as_int (v : Option JVal) : Int :=
  match v with
  | none => -1
  | some JVal.null => -1
  | some (JVal.bool b) => if b then 1 else 0
  | some (JVal.int n) => n
  | some (JVal.str s) =>
      match pyIntOfString s with
      | some n => n
      | none => -1
  | some JVal.other => -1

/-- The source's _as_str accessor: the value itself when it is a string,
otherwise the empty string. -/
def _as_str (v : Option JVal) : String :=
  match v with
  | some (JVal.str s) => s
  | _ => ""

/-- Canonical run_end summary of a Signature (string/int normalized). -/
structure RunEndSummary : Type where
  status : String
  outcome : String
  frames : Int
  checksum_chain : String
  output_sha256 : String
deriving DecidableEq, Repr

/-- One resize input event projected into the Signature. -/
structure ResizeInput : Type where
  cols : Int
  rows : Int
  hash_key : String
deriving DecidableEq, Repr

/-- One frame event projected into the Signature. -/
structure Frame : Type where
  cols : Int
  rows : Int
  frame_hash : String
  hash_key : String
deriving DecidableEq, Repr

/-- The canonical comparable projection of one trace. -/
structure Signature : Type where
  run_end : RunEndSummary
  resize_inputs : List ResizeInput
  frames : List Frame
  geometry_sequence : List String
deriving DecidableEq, Repr

/-- Decimal digit character. -/
def digitChar : Nat → Char
  | 0 => '0'
  | 1 => '1'
  | 2 => '2'
  | 3 => '3'
  | 4 => '4'
  | 5 => '5'
  | 6 => '6'
  | 7 => '7'
  | 8 => '8'
  | _ => '9'

/-- Fuel-driven decimal rendering of a natural number (kernel-reducible
analogue of Nat.repr). -/
def natDigitsAux : Nat → Nat → List Char → List Char
  | 0, _, acc => acc
  | fuel + 1, n, acc =>
      if n < 10 then digitChar (n % 10) :: acc
      else natDigitsAux fuel (n / 10) (digitChar (n % 10) :: acc)

/-- Decimal rendering of a natural number. -/
def natRepr (n : Nat) : String :=
  String.mk (natDigitsAux (n + 1) n [])

/-- Decimal rendering of an integer, as Python str(int) renders it. -/
def intRepr : Int → String
  | Int.ofNat n => natRepr n
  | Int.negSucc n => "-" ++ natRepr (n + 1)

/-- The f-string "{cols}x{rows}" geometry key of a frame. -/
def geomOf (f : Frame) : String :=
  intRepr f.cols ++ "x" ++ intRepr f.rows

/-- Whether an event is a run_end event (event.get("type") == "run_end"). -/
def isRunEnd (e : RawEvent) : Bool :=
  eget e "type" == some (JVal.str "run_end")

/-- The source's run_end scan: run through the events in order, keeping
the most recent run_end event seen. -/
def lastRunEnd (events : List RawEvent) : Option RawEvent :=
  events.foldl (fun acc e => if isRunEnd e then some e else acc) none

/-- Whether an event is a resize input event. -/
def isResizeInput (e : RawEvent) : Bool :=
  eget e "type" == some (JVal.str "input") &&
    eget e "input_type" == some (JVal.str "resize")

/-- Whether an event is a frame event. -/
def isFrame (e : RawEvent) : Bool :=
  eget e "type" == some (JVal.str "frame")

/-- Projection of one resize input event. -/
def resizeOf (e : RawEvent) : ResizeInput :=
  { cols := _as_int (eget e "cols")
    rows := _as_int (eget e "rows")
    hash_key := _as_str (eget e "hash_key") }

/-- Projection of one frame event. -/
def frameOf (e : RawEvent) : Frame :=
  { cols := _as_int (eget e "cols")
    rows := _as_int (eget e "rows")
    frame_hash := _as_str (eget e "frame_hash")
    hash_key := _as_str (eget e "hash_key") }

/-- The resize-input list built by the extraction loop.  The source
builds resize_inputs and frames in one pass with an if / elif on the
mutually exclusive type discriminants, which collects per list exactly
the events passing that list's own test, in order. -/
def resizeInputsOf (events : List RawEvent) : List ResizeInput :=
  (events.filter isResizeInput).map resizeOf

/-- The frame list built by the extraction loop. -/
def framesOf (events : List RawEvent) : List Frame :=
  (events.filter isFrame).map frameOf

/-- The body of the geometry-collapse loop of extract_signature: append
the geometry of the frame unless it equals the last appended entry. -/
def geomStep (acc : List String) (f : Frame) : List String :=
  let geom := geomOf f
  if acc = [] ∨ acc.getLast? ≠ some geom then acc ++ [geom] else acc

/-- The geometry-collapse loop of extract_signature, folded over the
frames in order. -/
def geometry_sequence (frames : List Frame) : List String :=
  frames.foldl geomStep []

/-- The run_end summary read from the authoritative run_end event. -/
def runEndSummaryOf (e : RawEvent) : RunEndSummary :=
  { status := _as_str (eget e "status")
    outcome := _as_str (eget e "outcome")
    frames := _as_int (eget e "frames")
    checksum_chain := _as_str (eget e "checksum_chain")
    output_sha256 := _as_str (eget e "output_sha256") }

/-- The source's extract_signature: fail when no run_end event exists,
otherwise build the Signature from the last run_end event and the
ordered resize/frame projections. -/
def extract_signature (events : List RawEvent) : Except String Signature :=
  match lastRunEnd events with
  | none => Except.error "missing run_end event"
  | some run_end =>
      Except.ok
        { run_end := runEndSummaryOf run_end
          resize_inputs := resizeInputsOf events
          frames := framesOf events
          geometry_sequence := geometry_sequence (framesOf events) }

/-- A diff's expected/actual slot: the Python code stores either a
string or an int there (lengths and run_end.frames are ints, every
other compared value is rendered as or already is a string). -/
inductive DVal : Type where
  | s : String → DVal
  | i : Int → DVal
deriving DecidableEq, Repr

/-- One structural divergence record, as built by _append_diff.  The
Python dict key "class" is a Lean keyword, hence the field name
class_name (matching the class_name parameter of _append_diff). -/
structure Diff : Type where
  class_name : String
  path : String
  expected : DVal
  actual : DVal
  details : String
deriving DecidableEq, Repr

/-- The run_end scalar block of compare_signatures: the loop over the
fields status, outcome, frames, unrolled. -/
def runEndDiffs (b t : Signature) : List Diff :=
  (if b.run_end.status ≠ t.run_end.status then
    [{ class_name := "run_end_mismatch", path := "run_end.status",
       expected := DVal.s b.run_end.status, actual := DVal.s t.run_end.status,
       details := "run_end field diverged" }]
  else []) ++
  (if b.run_end.outcome ≠ t.run_end.outcome then
    [{ class_name := "run_end_mismatch", path := "run_end.outcome",
       expected := DVal.s b.run_end.outcome, actual := DVal.s t.run_end.outcome,
       details := "run_end field diverged" }]
  else []) ++
  (if b.run_end.frames ≠ t.run_end.frames then
    [{ class_name := "run_end_mismatch", path := "run_end.frames",
       expected := DVal.i b.run_end.frames, actual := DVal.i t.run_end.frames,
       details := "run_end field diverged" }]
  else [])

/-- The per-index loop of the resize_inputs block: for each index of the
overlapping prefix, an independent geometry check and hash_key check. -/
def resizeIndexDiffs : Nat → List ResizeInput → List ResizeInput → List Diff
  | _, [], _ => []
  | _, _ :: _, [] => []
  | idx, l :: ls, r :: rs =>
      (if (l.cols, l.rows) ≠ (r.cols, r.rows) then
        [{ class_name := "resize_input_geometry",
           path := "resize_inputs[" ++ natRepr idx ++ "].cols_rows",
           expected := DVal.s (intRepr l.cols ++ "x" ++ intRepr l.rows),
           actual := DVal.s (intRepr r.cols ++ "x" ++ intRepr r.rows),
           details := "resize geometry diverged" }]
      else []) ++
      (if l.hash_key ≠ r.hash_key then
        [{ class_name := "resize_input_hash_key",
           path := "resize_inputs[" ++ natRepr idx ++ "].hash_key",
           expected := DVal.s l.hash_key, actual := DVal.s r.hash_key,
           details := "resize hash_key diverged" }]
      else []) ++
      resizeIndexDiffs (idx + 1) ls rs

/-- The resize_inputs block: length check, then the per-index loop over
range(min(len, len)). -/
def resizeDiffs (b t : Signature) : List Diff :=
  (if b.resize_inputs.length ≠ t.resize_inputs.length then
    [{ class_name := "resize_inputs_length", path := "resize_inputs.length",
       expected := DVal.i b.resize_inputs.length,
       actual := DVal.i t.resize_inputs.length,
       details := "resize input event count diverged" }]
  else []) ++
  resizeIndexDiffs 0 b.resize_inputs t.resize_inputs

/-- The per-index loop of the geometry_sequence block. -/
def geometryIndexDiffs : Nat → List String → List String → List Diff
  | _, [], _ => []
  | _, _ :: _, [] => []
  | idx, l :: ls, r :: rs =>
      (if l ≠ r then
        [{ class_name := "geometry_sequence_value",
           path := "geometry_sequence[" ++ natRepr idx ++ "]",
           expected := DVal.s l, actual := DVal.s r,
           details := "unique frame geometry diverged" }]
      else []) ++
      geometryIndexDiffs (idx + 1) ls rs

/-- The geometry_sequence block: length check, then per-index values
over the overlapping prefix. -/
def geometryDiffs (b t : Signature) : List Diff :=
  (if b.geometry_sequence.length ≠ t.geometry_sequence.length then
    [{ class_name := "geometry_sequence_length",
       path := "geometry_sequence.length",
       expected := DVal.i b.geometry_sequence.length,
       actual := DVal.i t.geometry_sequence.length,
       details := "unique frame geometry sequence length diverged" }]
  else []) ++
  geometryIndexDiffs 0 b.geometry_sequence t.geometry_sequence

/-- The frames block: length check only, no element-wise content. -/
def frameCountDiffs (b t : Signature) : List Diff :=
  if b.frames.length ≠ t.frames.length then
    [{ class_name := "frame_count", path := "frames.length",
       expected := DVal.i b.frames.length, actual := DVal.i t.frames.length,
       details := "frame event count diverged" }]
  else []

/-- The final-frame block: when both signatures have at least one frame,
compare the last frame's geometry and hash_key. -/
def finalFrameDiffs (b t : Signature) : List Diff :=
  match b.frames.getLast?, t.frames.getLast? with
  | some bl, some tl =>
      (if (bl.cols, bl.rows) ≠ (tl.cols, tl.rows) then
        [{ class_name := "final_frame_geometry", path := "frames[-1].cols_rows",
           expected := DVal.s (intRepr bl.cols ++ "x" ++ intRepr bl.rows),
           actual := DVal.s (intRepr tl.cols ++ "x" ++ intRepr tl.rows),
           details := "final frame geometry diverged" }]
      else []) ++
      (if bl.hash_key ≠ tl.hash_key then
        [{ class_name := "final_frame_hash_key", path := "frames[-1].hash_key",
           expected := DVal.s bl.hash_key, actual := DVal.s tl.hash_key,
           details := "final frame hash_key diverged" }]
      else [])
  | _, _ => []

/-- The source's compare_signatures: the five blocks, appended in the
order the Python function appends into its diffs accumulator. -/
def compare_signatures (b t : Signature) : List Diff :=
  runEndDiffs b t ++ resizeDiffs b t ++ geometryDiffs b t ++
    frameCountDiffs b t ++ finalFrameDiffs b t

/-- Index of the first occurrence of a character in a list. -/
def findCharIdx (c : Char) : List Char → Option Nat
  | [] => none
  | a :: rest => if a = c then some 0 else (findCharIdx c rest).map (fun n => n + 1)

/-- Where fnmatch starts scanning for the closing bracket of a
character class: one past an optional leading negation and an optional
leading literal close-bracket. -/
def classScanStart (ps : List Char) : Nat :=
  let j := if ps.head? = some '!' then 1 else 0
  if (ps.drop j).head? = some ']' then j + 1 else j

/-- Split the pattern tail after an opening bracket into the class body
and the remainder after the closing bracket; none when the class is
unterminated (fnmatch then treats the opening bracket as a literal). -/
def splitClass (ps : List Char) : Option (List Char × List Char) :=
  let j := classScanStart ps
  match findCharIdx ']' (ps.drop j) with
  | none => none
  | some k => some (ps.take (j + k), ps.drop (j + k + 1))

/-- Membership of a character in a class body: ranges a-b by code
point, a dash at the start or end is a literal. -/
def classMatches : List Char → Char → Bool
  | a :: '-' :: b :: rest, c =>
      (a ≤ c && c ≤ b) || classMatches rest c
  | a :: rest, c => a == c || classMatches rest c
  | [], _ => false

/-- Whether a class body (possibly starting with a negation marker)
accepts a character. -/
def classAccepts (body : List Char) (c : Char) : Bool :=
  match body with
  | '!' :: inner => !(classMatches inner c)
  | _ => classMatches body c

theorem splitClass_rest_length {ps body rest : List Char}
    (h : splitClass ps = some (body, rest)) : rest.length ≤ ps.length := by
  cases hf : findCharIdx ']' (ps.drop (classScanStart ps)) with
  | none => simp [splitClass, hf] at h
  | some k =>
      simp only [splitClass, hf, Option.some.injEq, Prod.mk.injEq] at h
      rw [← h.2]
      simp only [List.length_drop]
      omega

/-- Shell-style whole-string glob matching on character lists, as
fnmatch.fnmatchcase does: a star matches any run, a question mark any
single character, brackets a character class, anything else itself. -/
def globMatch : List Char → List Char → Bool
  | [], [] => true
  | [], _ :: _ => false
  | '*' :: ps, s =>
      globMatch ps s ||
        (match s with
         | [] => false
         | _ :: cs => globMatch ('*' :: ps) cs)
  | '?' :: ps, s =>
      (match s with
       | [] => false
       | _ :: cs => globMatch ps cs)
  | '[' :: ps, s =>
      (match hsc : splitClass ps with
       | some (body, rest) =>
           (match s with
            | [] => false
            | c :: cs => classAccepts body c && globMatch rest cs)
       | none =>
           (match s with
            | [] => false
            | c :: cs => ('[' == c) && globMatch ps cs))
  | p :: ps, s =>
      (match s with
       | [] => false
       | c :: cs => (p == c) && globMatch ps cs)
termination_by ps s => (ps.length, s.length)
decreasing_by
  all_goals simp_wf
  all_goals
    first
    | exact Prod.Lex.right _ (Nat.lt_succ_self _)
    | exact Prod.Lex.left _ _ (Nat.lt_succ_self _)
    | exact Prod.Lex.left _ _ (Nat.lt_succ_of_le (splitClass_rest_length hsc))

/-- Python's fnmatch.fnmatchcase(name, pattern): case-sensitive
whole-string glob match. -/
def fnmatchcase (name pat : String) : Bool :=
  globMatch pat.data name.data

/-- An authored suppression rule for a known divergence class. -/
structure KnownDivergence : Type where
  class_pattern : String
  left_browser_pattern : String
  right_browser_pattern : String
  path_pattern : String
  rationale : String
deriving DecidableEq, Repr

/-- The source's _match_pair: the rule's browser patterns match the
label pair in the forward or the reverse orientation. -/
def _match_pair (rule : KnownDivergence) (left right : String) : Bool :=
  (fnmatchcase left rule.left_browser_pattern &&
    fnmatchcase right rule.right_browser_pattern) ||
  (fnmatchcase left rule.right_browser_pattern &&
    fnmatchcase right rule.left_browser_pattern)

/-- The per-rule test of the classifier loop: class pattern, path
pattern, then browser pair, with an early continue on the first failing
test. -/
def ruleMatches (rule : KnownDivergence) (diff : Diff)
    (baseline_browser target_browser : String) : Bool :=
  fnmatchcase diff.class_name rule.class_pattern &&
  fnmatchcase diff.path rule.path_pattern &&
  _match_pair rule baseline_browser target_browser

/-- The classifier's inner loop: the first rule in authoring order that
matches the diff, if any. -/
def matchedRule (rules : List KnownDivergence) (diff : Diff)
    (baseline_browser target_browser : String) : Option KnownDivergence :=
  rules.find? (fun rule => ruleMatches rule diff baseline_browser target_browser)

/-- A diff as it appears in the classifier output: the original diff
dict extended with the browser-pair context keys, and, for known diffs,
the matching rule's rationale. -/
structure CDiff : Type where
  diff : Diff
  baseline_browser : String
  target_browser : String
  known_rationale : Option String
deriving DecidableEq, Repr

/-- The source's classify_diffs: one pass over the diffs, appending
each context-extended diff to known when some rule matched (with the
first matching rule's rationale) and to unknown otherwise. -/
def classify_diffs (diffs : List Diff)
    (baseline_browser target_browser : String)
    (rules : List KnownDivergence) : List CDiff × List CDiff :=
  match diffs with
  | [] => ([], [])
  | d :: rest =>
      let prev := classify_diffs rest baseline_browser target_browser rules
      match matchedRule rules d baseline_browser target_browser with
      | none =>
          (prev.1,
           { diff := d, baseline_browser := baseline_browser,
             target_browser := target_browser, known_rationale := none } :: prev.2)
      | some rule =>
          ({ diff := d, baseline_browser := baseline_browser,
             target_browser := target_browser,
             known_rationale := some rule.rationale } :: prev.1,
           prev.2)

/-- Python str.split(sep) for a single-character separator: keeps empty
fields, never drops a trailing field. -/
def splitOnChar (sep : Char) (cs : List Char) : List (List Char) :=
  match cs with
  | [] => [[]]
  | c :: rest =>
      let parts := splitOnChar sep rest
      if c = sep then [] :: parts
      else
        match parts with
        | [] => [[c]]
        | p :: ps => (c :: p) :: ps

/-- Python raw.split on the tab character, over Strings. -/
def splitTabs (s : String) : List String :=
  (splitOnChar '\t' s.data).map String.mk

/-- Python raw.startswith on the single-character comment marker. -/
def startsWithHash (s : String) : Bool :=
  s.data.head? = some '#'

/-- Empty-cell defaulting of a pattern column: parts[i].strip() or "*". -/
def orStar (s : String) : String :=
  if pyStrip s = "" then "*" else pyStrip s

/-- One line of the known-divergences TSV, as parse_known_divergences
handles it: none for a blank or comment line, an error for a line with
fewer than five tab-separated fields, otherwise the rule built from the
first five fields (anything after the fifth tab is never read). -/
def parseRuleLine (idx : Nat) (line : String) :
    Except String (Option KnownDivergence) :=
  let raw := pyStrip line
  if raw = "" ∨ startsWithHash raw then Except.ok none
  else
    let parts := splitTabs raw
    if parts.length < 5 then
      Except.error (natRepr idx ++
        ": expected 5 tab-separated fields (class, left, right, path_pattern, rationale)")
    else
      Except.ok (some
        { class_pattern := orStar (parts.getD 0 "")
          left_browser_pattern := orStar (parts.getD 1 "")
          right_browser_pattern := orStar (parts.getD 2 "")
          path_pattern := orStar (parts.getD 3 "")
          rationale := pyStrip (parts.getD 4 "") })

/-- Helper: run parseRuleLine over the numbered lines, accumulating
accepted rules in order and stopping at the first error. -/
def parseRuleLines (idx : Nat) (lines : List String) :
    Except String (List KnownDivergence) :=
  match lines with
  | [] => Except.ok []
  | line :: rest =>
      match parseRuleLine idx line with
      | Except.error e => Except.error e
      | Except.ok none => parseRuleLines (idx + 1) rest
      | Except.ok (some rule) =>
          match parseRuleLines (idx + 1) rest with
          | Except.error e => Except.error e
          | Except.ok rules => Except.ok (rule :: rules)

/-- The source's parse_known_divergences, over the list of lines of the
rule file (file access and the None short-circuit are the I/O boundary
outside the core; enumerate starts at line number 1). -/
def parse_known_divergences (lines : List String) :
    Except String (List KnownDivergence) :=
  parseRuleLines 1 lines

/-- One entry of the report's comparisons array, as main builds it. -/
structure ComparisonResult : Type where
  baseline_browser : String
  target_browser : String
  total_diffs : Nat
  known_diffs : List CDiff
  unknown_diffs : List CDiff
  status : String
deriving DecidableEq, Repr

/-- One comparison of main's loop body: diff the baseline signature
against the target, classify, and attach the per-comparison status
string ("pass" if not unknown else "warn"/"fail" by mode). -/
def mkComparison (mode : String) (rules : List KnownDivergence)
    (baseline : String × Signature) (target : String × Signature) :
    ComparisonResult :=
  let raw_diffs := compare_signatures baseline.2 target.2
  let kn := classify_diffs raw_diffs baseline.1 target.1 rules
  { baseline_browser := baseline.1
    target_browser := target.1
    total_diffs := raw_diffs.length
    known_diffs := kn.1
    unknown_diffs := kn.2
    status := if kn.2 = [] then "pass" else if mode = "warn" then "warn" else "fail" }

/-- Main's comparison loop: every non-baseline trace, in trace-map
order, is compared against the baseline. -/
def runComparisons (mode : String) (rules : List KnownDivergence)
    (baseline : String × Signature) (sigs : List (String × Signature)) :
    List ComparisonResult :=
  (sigs.filter (fun p => p.1 ≠ baseline.1)).map (mkComparison mode rules baseline)

/-- Main's total_unknown accumulator: the summed size of the unknown
lists across all comparisons. -/
def total_unknown (comps : List ComparisonResult) : Nat :=
  (comps.map (fun c => c.unknown_diffs.length)).sum

/-- Main's overall status: "pass" unless some unknown diff exists,
in which case "warn" or "fail" by mode. -/
def overall_status (mode : String) (comps : List ComparisonResult) : String :=
  if total_unknown comps > 0 then (if mode = "warn" then "warn" else "fail")
  else "pass"

/-! Theorems. -/

theorem resizeIndexDiffs_self (idx : Nat) (l : List ResizeInput) :
    resizeIndexDiffs idx l l = [] := by
  induction l generalizing idx with
  | nil => simp [resizeIndexDiffs]
  | cons x xs ih => simp [resizeIndexDiffs, ih]

theorem geometryIndexDiffs_self (idx : Nat) (l : List String) :
    geometryIndexDiffs idx l l = [] := by
  induction l generalizing idx with
  | nil => simp [geometryIndexDiffs]
  | cons x xs ih => simp [geometryIndexDiffs, ih]

theorem finalFrameDiffs_self (S : Signature) : finalFrameDiffs S S = [] := by
  unfold finalFrameDiffs
  cases S.frames.getLast? <;> simp

/-- C1: for every Signature S, compare_signatures(S, S) returns the
empty diff list (reflexivity of the diff engine). -/
theorem compare_signatures_refl (S : Signature) : compare_signatures S S = [] := by
  simp [compare_signatures, runEndDiffs, resizeDiffs, geometryDiffs, frameCountDiffs,
    resizeIndexDiffs_self, geometryIndexDiffs_self, finalFrameDiffs_self]

/-- Modelled from the spec's words for comparison with the code's
geometry loop, continuation part: emit each value that differs from the
immediately preceding emitted value. -/
def collapseFrom (last : String) : List String → List String
  | [] => []
  | g :: rest => if g = last then collapseFrom last rest else g :: collapseFrom g rest

/-- Modelled from the spec's words for comparison with the code's
geometry loop: consecutive-repeat collapse of a sequence — the first
value is emitted, and each later value is emitted exactly when it
differs from the immediately preceding emitted value. -/
def collapseConsecutive : List String → List String
  | [] => []
  | g :: rest => g :: collapseFrom g rest

theorem foldl_geomStep_of_getLast (frames : List Frame) :
    ∀ (acc : List String) (last : String), acc.getLast? = some last →
      frames.foldl geomStep acc = acc ++ collapseFrom last (frames.map geomOf) := by
  induction frames with
  | nil => intro acc last _; simp [collapseFrom]
  | cons f fs ih =>
      intro acc last hacc
      have hne : acc ≠ [] := by
        intro h; rw [h] at hacc; simp at hacc
      by_cases hg : geomOf f = last
      · have hstep : geomStep acc f = acc := by
          simp [geomStep, hne, hacc, hg]
        rw [List.foldl_cons, hstep, List.map_cons, collapseFrom]
        rw [if_pos hg]
        exact ih acc last hacc
      · have hlast : acc.getLast? ≠ some (geomOf f) := by
          rw [hacc]; intro h; exact hg (Option.some.inj h).symm
        have hstep : geomStep acc f = acc ++ [geomOf f] := by
          simp [geomStep, hlast]
        rw [List.foldl_cons, hstep, List.map_cons, collapseFrom, if_neg hg]
        rw [ih (acc ++ [geomOf f]) (geomOf f) (by simp)]
        simp

theorem geometry_sequence_eq_collapse (frames : List Frame) :
    geometry_sequence frames = collapseConsecutive (frames.map geomOf) := by
  cases frames with
  | nil => rfl
  | cons f fs =>
      have hstep : geomStep [] f = [geomOf f] := by simp [geomStep]
      rw [geometry_sequence, List.foldl_cons, hstep,
        foldl_geomStep_of_getLast fs [geomOf f] (geomOf f) (by simp)]
      simp [collapseConsecutive]

/-- The frame sequence of the spec's geometry-collapse example:
cols/rows (80,24), (80,24), (100,30), (100,30), (80,24). -/
def c2Frames : List Frame :=
  [{ cols := 80, rows := 24, frame_hash := "", hash_key := "" },
   { cols := 80, rows := 24, frame_hash := "", hash_key := "" },
   { cols := 100, rows := 30, frame_hash := "", hash_key := "" },
   { cols := 100, rows := 30, frame_hash := "", hash_key := "" },
   { cols := 80, rows := 24, frame_hash := "", hash_key := "" }]

/-- C2: the extracted geometry_sequence is the consecutive-repeat
collapse of the per-frame "{cols}x{rows}" strings in order (an entry is
dropped exactly when it equals the immediately preceding emitted entry,
not full deduplication), and in particular the frame cols/rows sequence
(80,24), (80,24), (100,30), (100,30), (80,24) yields the 3-entry
sequence 80x24, 100x30, 80x24. -/
theorem geometry_sequence_collapse_spec :
    (∀ frames : List Frame,
        geometry_sequence frames = collapseConsecutive (frames.map geomOf)) ∧
    geometry_sequence c2Frames = ["80x24", "100x30", "80x24"] ∧
    (geometry_sequence c2Frames).length = 3 :=
  ⟨geometry_sequence_eq_collapse, by decide, by decide⟩

theorem match_pair_symm (rule : KnownDivergence) (left right : String) :
    _match_pair rule left right = _match_pair rule right left := by
  unfold _match_pair
  rw [Bool.or_comm]
  congr 1 <;> rw [Bool.and_comm]

theorem ruleMatches_symm (rule : KnownDivergence) (diff : Diff) (b t : String) :
    ruleMatches rule diff b t = ruleMatches rule diff t b := by
  unfold ruleMatches
  rw [match_pair_symm]

theorem matchedRule_symm (rules : List KnownDivergence) (diff : Diff) (b t : String) :
    matchedRule rules diff b t = matchedRule rules diff t b := by
  unfold matchedRule
  congr 1
  funext rule
  exact ruleMatches_symm rule diff b t

/-- The rule of the spec's rule-symmetry example. -/
def c4Rule : KnownDivergence :=
  { class_pattern := "*", left_browser_pattern := "firefoxish*",
    right_browser_pattern := "chromish*", path_pattern := "*",
    rationale := "cadence differs" }

/-- A diff for exercising the classifier on the example rule. -/
def c4Diff : Diff :=
  { class_name := "frame_count", path := "frames.length",
    expected := DVal.i 3, actual := DVal.i 5,
    details := "frame event count diverged" }

/-- C4 counterexample: the spec's example rule left=firefoxish*,
right=chromish* does not suppress a diff when the baseline label is
firefox99 and the target label is chrome12 — the patterns match neither
label (firefoxish* does not glob-match firefox99, chromish* does not
glob-match chrome12), so the diff stays unknown in both orientations,
contradicting the claimed example. -/
theorem c4Rule_firefox99_not_suppressed :
    _match_pair c4Rule "firefox99" "chrome12" = false ∧
    classify_diffs [c4Diff] "firefox99" "chrome12" [c4Rule] =
      ([], [{ diff := c4Diff, baseline_browser := "firefox99",
              target_browser := "chrome12", known_rationale := none }]) ∧
    classify_diffs [c4Diff] "chrome12" "firefox99" [c4Rule] =
      ([], [{ diff := c4Diff, baseline_browser := "chrome12",
              target_browser := "firefox99", known_rationale := none }]) := by
  refine ⟨?_, ?_, ?_⟩ <;>
    simp [classify_diffs, matchedRule, ruleMatches, _match_pair, fnmatchcase,
      c4Rule, c4Diff, globMatch, splitClass, classScanStart, findCharIdx,
      classAccepts, classMatches, List.find?]

/-- C4 (amended): rule matching is symmetric in the browser pair — a
rule matches with baseline B and target T iff it matches with baseline
T and target B, because the browser patterns are tried in both
orientations; e.g. the rule left=firefoxish*, right=chromish*
suppresses the same diff whether the baseline is firefoxish99 and the
target chromish12 or vice versa (the spec's labels firefox99/chrome12
match the patterns in neither orientation, so that rule suppresses
nothing for them). -/
theorem rule_matching_symmetric :
    (∀ (rule : KnownDivergence) (diff : Diff) (b t : String),
        ruleMatches rule diff b t = ruleMatches rule diff t b) ∧
    (∀ (rules : List KnownDivergence) (diff : Diff) (b t : String),
        matchedRule rules diff b t = matchedRule rules diff t b) ∧
    classify_diffs [c4Diff] "firefoxish99" "chromish12" [c4Rule] =
      ([{ diff := c4Diff, baseline_browser := "firefoxish99",
          target_browser := "chromish12",
          known_rationale := some "cadence differs" }], []) ∧
    classify_diffs [c4Diff] "chromish12" "firefoxish99" [c4Rule] =
      ([{ diff := c4Diff, baseline_browser := "chromish12",
          target_browser := "firefoxish99",
          known_rationale := some "cadence differs" }], []) := by
  refine ⟨ruleMatches_symm, matchedRule_symm, ?_, ?_⟩ <;>
    simp [classify_diffs, matchedRule, ruleMatches, _match_pair, fnmatchcase,
      c4Rule, c4Diff, globMatch, splitClass, classScanStart, findCharIdx,
      classAccepts, classMatches, List.find?]

theorem find?_append_of_forall_false {α : Type} (p : α → Bool)
    (pre rest : List α) (h : ∀ x ∈ pre, p x = false) :
    (pre ++ rest).find? p = rest.find? p := by
  induction pre with
  | nil => rfl
  | cons a as ih =>
      simp only [List.cons_append, List.find?]
      rw [h a (by simp)]
      exact ih (fun x hx => h x (by simp [hx]))

/-- C5: the classifier scans rules in authoring (list) order and the
first rule whose class, path and browser patterns all match wins; its
rationale is attached to the diff, and rules after the winner are never
consulted (the result is invariant under replacing the tail after the
winner). -/
theorem first_matching_rule_wins
    (d : Diff) (b t : String) (pre post : List KnownDivergence)
    (r : KnownDivergence)
    (hpre : ∀ r2 ∈ pre, ruleMatches r2 d b t = false)
    (hr : ruleMatches r d b t = true) :
    matchedRule (pre ++ r :: post) d b t = some r ∧
    (∀ post2 : List KnownDivergence,
        matchedRule (pre ++ r :: post2) d b t = some r) ∧
    classify_diffs [d] b t (pre ++ r :: post) =
      ([{ diff := d, baseline_browser := b, target_browser := t,
          known_rationale := some r.rationale }], []) := by
  have hfind : ∀ post2 : List KnownDivergence,
      matchedRule (pre ++ r :: post2) d b t = some r := by
    intro post2
    unfold matchedRule
    rw [find?_append_of_forall_false _ pre _ hpre]
    simp [List.find?, hr]
  refine ⟨hfind post, hfind, ?_⟩
  simp [classify_diffs, hfind post]

/-- A rule that matches no frame_count diff (class pattern disagrees). -/
def c5RuleA : KnownDivergence :=
  { class_pattern := "resize_*", left_browser_pattern := "*",
    right_browser_pattern := "*", path_pattern := "*",
    rationale := "first rationale" }

/-- A match-all rule listed second. -/
def c5RuleB : KnownDivergence :=
  { class_pattern := "*", left_browser_pattern := "*",
    right_browser_pattern := "*", path_pattern := "*",
    rationale := "second rationale" }

/-- A match-all rule listed third, with a different rationale. -/
def c5RuleC : KnownDivergence :=
  { class_pattern := "*", left_browser_pattern := "*",
    right_browser_pattern := "*", path_pattern := "*",
    rationale := "third rationale" }

/-- A diff for exercising first-match priority. -/
def c5Diff : Diff :=
  { class_name := "frame_count", path := "frames.length",
    expected := DVal.i 2, actual := DVal.i 4,
    details := "frame event count diverged" }

/-- C5 witness: with a non-matching first rule and two matching rules
behind it, the first matching rule's rationale (the second rule's) is
attached, and the third rule is never consulted. -/
theorem first_matching_rule_wins_witness :
    matchedRule [c5RuleA, c5RuleB, c5RuleC] c5Diff "ff" "ch" = some c5RuleB ∧
    matchedRule [c5RuleA, c5RuleB] c5Diff "ff" "ch" = some c5RuleB ∧
    classify_diffs [c5Diff] "ff" "ch" [c5RuleA, c5RuleB, c5RuleC] =
      ([{ diff := c5Diff, baseline_browser := "ff", target_browser := "ch",
          known_rationale := some "second rationale" }], []) :=
  have h := first_matching_rule_wins c5Diff "ff" "ch" [c5RuleA] [c5RuleC] c5RuleB
    (by
      intro r2 hr2
      simp only [List.mem_singleton] at hr2
      subst hr2
      simp [ruleMatches, fnmatchcase, c5RuleA, c5Diff, globMatch, splitClass,
        classScanStart, findCharIdx, classAccepts, classMatches])
    (by
      simp [ruleMatches, _match_pair, fnmatchcase, c5RuleB, c5Diff, globMatch,
        splitClass, classScanStart, findCharIdx, classAccepts, classMatches])
  ⟨h.1, h.2.1 [], h.2.2⟩

/-- A resize input event whose cols field is the string "100" rather
than an integer. -/
def c6Event : RawEvent :=
  [("type", JVal.str "input"), ("input_type", JVal.str "resize"),
   ("cols", JVal.str "100"), ("rows", JVal.int 24), ("hash_key", JVal.str "k")]

/-- A minimal run_end event. -/
def c6RunEnd : RawEvent :=
  [("type", JVal.str "run_end"), ("status", JVal.str "ok")]

/-- A trace containing the mistyped resize event. -/
def c6Events : List RawEvent :=
  [c6Event, c6RunEnd]

/-- C6 counterexample: a scalar field value that is not of the field's
expected type does not always yield the typed default — int() coercion
succeeds on the string "100" (and on booleans), so the extracted cols
is 100, not -1, refuting the claim at this concrete input. -/
theorem as_int_mismatch_not_always_default :
    _as_int (some (JVal.str "100")) = 100 ∧ (100 : Int) ≠ -1 ∧
    _as_int (some (JVal.bool true)) = 1 ∧ (1 : Int) ≠ -1 ∧
    (extract_signature c6Events).toOption.map Signature.resize_inputs =
      some [{ cols := 100, rows := 24, hash_key := "k" }] := by
  refine ⟨by decide, by decide, by decide, by decide, by decide⟩

/-- C6 (amended): scalar fields are read with coercing
default-on-failure accessors — an integer field yields int() of the
value, i.e. the value itself for ints, 0/1 for booleans and the parsed
number for numeric strings, and yields the default -1 exactly when the
coercion fails (absent field, null, non-numeric string, composite
value); a string field yields the value when it is a string and the
default "" otherwise; and extraction itself never fails on a malformed
or missing scalar field (only a missing run_end event makes it fail). -/
theorem scalar_field_coercion_policy :
    _as_int none = -1 ∧
    _as_int (some JVal.null) = -1 ∧
    _as_int (some JVal.other) = -1 ∧
    (∀ s : String, pyIntOfString s = none → _as_int (some (JVal.str s)) = -1) ∧
    (∀ s : String, ∀ n : Int, pyIntOfString s = some n →
        _as_int (some (JVal.str s)) = n) ∧
    (∀ n : Int, _as_int (some (JVal.int n)) = n) ∧
    (∀ b : Bool, _as_int (some (JVal.bool b)) = if b then 1 else 0) ∧
    _as_str none = "" ∧
    (∀ v : JVal, (∀ s : String, v ≠ JVal.str s) → _as_str (some v) = "") ∧
    (∀ s : String, _as_str (some (JVal.str s)) = s) ∧
    (∀ events : List RawEvent, lastRunEnd events ≠ none →
        ∃ sig, extract_signature events = Except.ok sig) := by
  refine ⟨rfl, rfl, rfl, ?_, ?_, fun n => rfl, fun b => rfl, rfl, ?_, fun s => rfl, ?_⟩
  · intro s hs
    simp [_as_int, hs]
  · intro s n hs
    simp [_as_int, hs]
  · intro v hv
    cases v with
    | str s => exact absurd rfl (hv s)
    | _ => rfl
  · intro events h
    cases hl : lastRunEnd events with
    | none => exact absurd hl h
    | some e =>
        exact ⟨{ run_end := runEndSummaryOf e, resize_inputs := resizeInputsOf events,
                 frames := framesOf events,
                 geometry_sequence := geometry_sequence (framesOf events) },
               by simp [extract_signature, hl]⟩

/-- C6 amended-claim witness: the non-numeric string "abc" defaults to
-1, and a trace whose run_end scan succeeds extracts without failing. -/
theorem scalar_field_coercion_policy_witness :
    _as_int (some (JVal.str "abc")) = -1 ∧
    _as_str (some JVal.other) = "" ∧
    (∃ sig, extract_signature c6Events = Except.ok sig) :=
  ⟨scalar_field_coercion_policy.2.2.2.1 "abc" (by decide),
   scalar_field_coercion_policy.2.2.2.2.2.2.2.2.1 JVal.other (by intro s h; cases h),
   scalar_field_coercion_policy.2.2.2.2.2.2.2.2.2.2 c6Events (by decide)⟩

theorem foldl_lastRunEnd_no_run_end (l : List RawEvent) :
    ∀ acc : Option RawEvent, (∀ x ∈ l, isRunEnd x = false) →
      l.foldl (fun acc e => if isRunEnd e then some e else acc) acc = acc := by
  induction l with
  | nil => intro acc _; rfl
  | cons e rest ih =>
      intro acc h
      simp only [List.foldl_cons, h e (by simp), if_false, Bool.false_eq_true]
      exact ih acc (fun x hx => h x (by simp [hx]))

theorem lastRunEnd_append_last (pre post : List RawEvent) (e : RawEvent)
    (he : isRunEnd e = true) (hpost : ∀ x ∈ post, isRunEnd x = false) :
    lastRunEnd (pre ++ e :: post) = some e := by
  unfold lastRunEnd
  rw [List.foldl_append, List.foldl_cons, he]
  simp only [if_true]
  exact foldl_lastRunEnd_no_run_end post (some e) hpost

theorem foldl_lastRunEnd_eq_none (l : List RawEvent) :
    ∀ acc : Option RawEvent,
      l.foldl (fun acc e => if isRunEnd e then some e else acc) acc = none →
      acc = none ∧ ∀ x ∈ l, isRunEnd x = false := by
  induction l with
  | nil => intro acc h; exact ⟨h, by simp⟩
  | cons e rest ih =>
      intro acc h
      rw [List.foldl_cons] at h
      obtain ⟨hstep, hrest⟩ := ih _ h
      by_cases he : isRunEnd e = true
      · rw [if_pos he] at hstep
        cases hstep
      · rw [if_neg he] at hstep
        refine ⟨hstep, ?_⟩
        intro x hx
        rcases List.mem_cons.mp hx with rfl | hx2
        · exact Bool.eq_false_iff.mpr he
        · exact hrest x hx2

theorem lastRunEnd_eq_none_iff (events : List RawEvent) :
    lastRunEnd events = none ↔ ∀ e ∈ events, isRunEnd e = false := by
  constructor
  · intro h
    exact (foldl_lastRunEnd_eq_none events none h).2
  · intro h
    exact foldl_lastRunEnd_no_run_end events none h

/-- C7: the last run_end event in the sequence is authoritative — for
any decomposition of the trace as pre ++ e :: post where e is a run_end
event and no event of post is, extraction succeeds and its run_end
summary is read from e (so later run_end events override earlier ones,
including any in pre) — and extraction fails with the missing-run_end
error exactly when the trace contains no run_end event. -/
theorem run_end_selection :
    (∀ (pre post : List RawEvent) (e : RawEvent),
        isRunEnd e = true → (∀ x ∈ post, isRunEnd x = false) →
        extract_signature (pre ++ e :: post) =
          Except.ok
            { run_end := runEndSummaryOf e
              resize_inputs := resizeInputsOf (pre ++ e :: post)
              frames := framesOf (pre ++ e :: post)
              geometry_sequence := geometry_sequence (framesOf (pre ++ e :: post)) }) ∧
    (∀ events : List RawEvent,
        extract_signature events = Except.error "missing run_end event" ↔
          ∀ e ∈ events, isRunEnd e = false) := by
  constructor
  · intro pre post e he hpost
    simp [extract_signature, lastRunEnd_append_last pre post e he hpost]
  · intro events
    constructor
    · intro h
      cases hl : lastRunEnd events with
      | none => exact (lastRunEnd_eq_none_iff events).mp hl
      | some e => simp [extract_signature, hl] at h
    · intro h
      simp [extract_signature, (lastRunEnd_eq_none_iff events).mpr h]

/-- An earlier, provisional run_end event with a different status. -/
def c7RunEnd1 : RawEvent :=
  [("type", JVal.str "run_end"), ("status", JVal.str "provisional")]

/-- The final run_end event. -/
def c7RunEnd2 : RawEvent :=
  [("type", JVal.str "run_end"), ("status", JVal.str "ok"),
   ("outcome", JVal.str "resize_storm_complete"), ("frames", JVal.int 2)]

/-- A non-run_end trailing event. -/
def c7Frame : RawEvent :=
  [("type", JVal.str "frame"), ("cols", JVal.int 80), ("rows", JVal.int 24),
   ("frame_hash", JVal.str "fh"), ("hash_key", JVal.str "hk")]

/-- C7 witness: on a trace with a provisional run_end followed by a
final one, extraction succeeds with the final run_end's summary; a
trace with no run_end event fails with the missing-run_end error. -/
theorem run_end_selection_witness :
    extract_signature ([c7RunEnd1] ++ c7RunEnd2 :: [c7Frame]) =
      Except.ok
        { run_end := runEndSummaryOf c7RunEnd2
          resize_inputs := resizeInputsOf ([c7RunEnd1] ++ c7RunEnd2 :: [c7Frame])
          frames := framesOf ([c7RunEnd1] ++ c7RunEnd2 :: [c7Frame])
          geometry_sequence :=
            geometry_sequence (framesOf ([c7RunEnd1] ++ c7RunEnd2 :: [c7Frame])) } ∧
    (extract_signature [c7Frame] = Except.error "missing run_end event" ↔
      ∀ e ∈ [c7Frame], isRunEnd e = false) :=
  ⟨run_end_selection.1 [c7RunEnd1] [c7Frame] c7RunEnd2 (by decide) (by decide),
   run_end_selection.2 [c7Frame]⟩

theorem filter_matched_lengths (diffs : List Diff) (b t : String)
    (rules : List KnownDivergence) :
    (diffs.filter (fun d => (matchedRule rules d b t).isSome)).length +
      (diffs.filter (fun d => (matchedRule rules d b t).isNone)).length =
      diffs.length := by
  induction diffs with
  | nil => rfl
  | cons d rest ih =>
      cases hm : matchedRule rules d b t <;>
        simp [List.filter_cons, hm] <;> omega

theorem classify_diffs_known_map (diffs : List Diff) (b t : String)
    (rules : List KnownDivergence) :
    (classify_diffs diffs b t rules).1.map CDiff.diff =
      diffs.filter (fun d => (matchedRule rules d b t).isSome) := by
  induction diffs with
  | nil => rfl
  | cons d rest ih =>
      cases hm : matchedRule rules d b t with
      | none => simp [classify_diffs, hm, ih]
      | some rule => simp [classify_diffs, hm, ih]

theorem classify_diffs_unknown_map (diffs : List Diff) (b t : String)
    (rules : List KnownDivergence) :
    (classify_diffs diffs b t rules).2.map CDiff.diff =
      diffs.filter (fun d => (matchedRule rules d b t).isNone) := by
  induction diffs with
  | nil => rfl
  | cons d rest ih =>
      cases hm : matchedRule rules d b t with
      | none => simp [classify_diffs, hm, ih]
      | some rule => simp [classify_diffs, hm, ih]

theorem classify_diffs_known_fields (diffs : List Diff) (b t : String)
    (rules : List KnownDivergence) :
    ∀ c ∈ (classify_diffs diffs b t rules).1,
      c.baseline_browser = b ∧ c.target_browser = t ∧
        ∃ r, matchedRule rules c.diff b t = some r ∧
          c.known_rationale = some r.rationale := by
  induction diffs with
  | nil => intro c hc; simp [classify_diffs] at hc
  | cons d rest ih =>
      intro c hc
      cases hm : matchedRule rules d b t with
      | none =>
          simp only [classify_diffs, hm] at hc
          exact ih c hc
      | some rule =>
          simp only [classify_diffs, hm, List.mem_cons] at hc
          rcases hc with rfl | hc
          · exact ⟨rfl, rfl, rule, hm, rfl⟩
          · exact ih c hc

theorem classify_diffs_unknown_fields (diffs : List Diff) (b t : String)
    (rules : List KnownDivergence) :
    ∀ c ∈ (classify_diffs diffs b t rules).2,
      c.baseline_browser = b ∧ c.target_browser = t ∧
        c.known_rationale = none := by
  induction diffs with
  | nil => intro c hc; simp [classify_diffs] at hc
  | cons d rest ih =>
      intro c hc
      cases hm : matchedRule rules d b t with
      | none =>
          simp only [classify_diffs, hm, List.mem_cons] at hc
          rcases hc with rfl | hc
          · exact ⟨rfl, rfl, rfl⟩
          · exact ih c hc
      | some rule =>
          simp only [classify_diffs, hm] at hc
          exact ih c hc

/-- C9: classify_diffs partitions its input — the known and unknown
projections are the order-preserving filters of the input by whether
some rule matched, their lengths sum to the input length, every input
diff lands in exactly one of the two lists, and each output entry is
the input diff extended with the baseline/target browser context (plus
the first matching rule's rationale for known entries). -/
theorem classify_diffs_partition (diffs : List Diff) (b t : String)
    (rules : List KnownDivergence) :
    (classify_diffs diffs b t rules).1.length +
        (classify_diffs diffs b t rules).2.length = diffs.length ∧
    (classify_diffs diffs b t rules).1.map CDiff.diff =
        diffs.filter (fun d => (matchedRule rules d b t).isSome) ∧
    (classify_diffs diffs b t rules).2.map CDiff.diff =
        diffs.filter (fun d => (matchedRule rules d b t).isNone) ∧
    (∀ c ∈ (classify_diffs diffs b t rules).1,
        c.baseline_browser = b ∧ c.target_browser = t ∧
          ∃ r, matchedRule rules c.diff b t = some r ∧
            c.known_rationale = some r.rationale) ∧
    (∀ c ∈ (classify_diffs diffs b t rules).2,
        c.baseline_browser = b ∧ c.target_browser = t ∧
          c.known_rationale = none) ∧
    (∀ d ∈ diffs,
        (d ∈ (classify_diffs diffs b t rules).1.map CDiff.diff ↔
          ¬ d ∈ (classify_diffs diffs b t rules).2.map CDiff.diff)) := by
  refine ⟨?_, classify_diffs_known_map diffs b t rules,
    classify_diffs_unknown_map diffs b t rules,
    classify_diffs_known_fields diffs b t rules,
    classify_diffs_unknown_fields diffs b t rules, ?_⟩
  · have h1 := congrArg List.length (classify_diffs_known_map diffs b t rules)
    have h2 := congrArg List.length (classify_diffs_unknown_map diffs b t rules)
    simp only [List.length_map] at h1 h2
    rw [h1, h2]
    exact filter_matched_lengths diffs b t rules
  · intro d hd
    rw [classify_diffs_known_map diffs b t rules,
      classify_diffs_unknown_map diffs b t rules]
    simp only [List.mem_filter, hd, true_and]
    cases matchedRule rules d b t <;> simp

/-- A diff for exercising the classifier partition. -/
def c9Diff : Diff :=
  { class_name := "resize_inputs_length", path := "resize_inputs.length",
    expected := DVal.i 1, actual := DVal.i 2,
    details := "resize input event count diverged" }

/-- The context-extended form of c9Diff under an empty rule set. -/
def c9CDiff : CDiff :=
  { diff := c9Diff, baseline_browser := "base", target_browser := "tgt",
    known_rationale := none }

/-- C9 witness: the partition properties applied to a concrete one-diff
classification with no rules. -/
theorem classify_diffs_partition_witness :
    ((classify_diffs [c9Diff] "base" "tgt" []).1.length +
        (classify_diffs [c9Diff] "base" "tgt" []).2.length = 1) ∧
    (c9CDiff.baseline_browser = "base" ∧ c9CDiff.target_browser = "tgt" ∧
        c9CDiff.known_rationale = none) ∧
    (c9Diff ∈ (classify_diffs [c9Diff] "base" "tgt" []).1.map CDiff.diff ↔
        ¬ c9Diff ∈ (classify_diffs [c9Diff] "base" "tgt" []).2.map CDiff.diff) :=
  have h := classify_diffs_partition [c9Diff] "base" "tgt" []
  ⟨h.1, h.2.2.2.2.1 c9CDiff (by decide), h.2.2.2.2.2 c9Diff (by decide)⟩

/-- C10: a rule-file line that is non-blank, non-comment and has more than
5 tab-separated fields is accepted without error, and its rationale is
exactly the stripped 5th field — everything after the 5th tab is
silently discarded. -/
theorem rule_line_extra_fields_accepted (line : String)
    (h1 : pyStrip line ≠ "")
    (h2 : startsWithHash (pyStrip line) = false)
    (h3 : 5 < (splitTabs (pyStrip line)).length) :
    parse_known_divergences [line] =
      Except.ok
        [{ class_pattern := orStar ((splitTabs (pyStrip line)).getD 0 "")
           left_browser_pattern := orStar ((splitTabs (pyStrip line)).getD 1 "")
           right_browser_pattern := orStar ((splitTabs (pyStrip line)).getD 2 "")
           path_pattern := orStar ((splitTabs (pyStrip line)).getD 3 "")
           rationale := pyStrip ((splitTabs (pyStrip line)).getD 4 "") }] := by
  have hcond : ¬(pyStrip line = "" ∨ startsWithHash (pyStrip line) = true) := by
    push_neg
    exact ⟨h1, by simp [h2]⟩
  have hlen : ¬ (splitTabs (pyStrip line)).length < 5 := by omega
  simp only [parse_known_divergences, parseRuleLines, parseRuleLine,
    if_neg hcond, if_neg hlen]

/-- A rule line with six tab-separated fields: the rationale carries a
tab, so its tail is truncated away. -/
def c10Line : String := "frame_count\tff*\tch*\tframes.length\tcadence\textra tail"

/-- C10 witness: the six-field line is accepted and its rationale is
the 5th field alone — the text after the 5th tab is gone. -/
theorem rule_line_extra_fields_accepted_witness :
    parse_known_divergences [c10Line] =
      Except.ok
        [{ class_pattern := "frame_count", left_browser_pattern := "ff*",
           right_browser_pattern := "ch*", path_pattern := "frames.length",
           rationale := "cadence" }] := by
  have h := rule_line_extra_fields_accepted c10Line (by decide) (by decide) (by decide)
  rw [h]
  rfl

/-- Severity order of the three status strings: pass is better than
warn, warn better than fail. -/
def statusRank : String → Nat
  | "pass" => 0
  | "warn" => 1
  | _ => 2

theorem mkComparison_unknown (mode : String) (rules : List KnownDivergence)
    (baseline target : String × Signature) :
    (mkComparison mode rules baseline target).unknown_diffs =
      (classify_diffs (compare_signatures baseline.2 target.2)
        baseline.1 target.1 rules).2 := rfl

theorem comparison_status_spec (mode : String) (rules : List KnownDivergence)
    (baseline target : String × Signature) :
    ((mkComparison mode rules baseline target).status = "pass" ↔
      (mkComparison mode rules baseline target).unknown_diffs = []) ∧
    ((mkComparison mode rules baseline target).unknown_diffs ≠ [] →
      (mkComparison mode rules baseline target).status =
        if mode = "warn" then "warn" else "fail") := by
  have hst : (mkComparison mode rules baseline target).status =
      if (mkComparison mode rules baseline target).unknown_diffs = [] then "pass"
      else if mode = "warn" then "warn" else "fail" := rfl
  rw [hst]
  by_cases h : (mkComparison mode rules baseline target).unknown_diffs = []
  · simp [h]
  · rw [if_neg h]
    refine ⟨⟨fun hcontra => ?_, fun h2 => absurd h2 h⟩, fun _ => rfl⟩
    by_cases hm : mode = "warn" <;> simp [hm] at hcontra

theorem overall_status_spec (mode : String) (comps : List ComparisonResult) :
    (overall_status mode comps = "pass" ↔ total_unknown comps = 0) ∧
    (total_unknown comps ≠ 0 →
      overall_status mode comps = if mode = "warn" then "warn" else "fail") := by
  unfold overall_status
  by_cases h : total_unknown comps > 0
  · rw [if_pos h]
    refine ⟨⟨fun hcontra => ?_, fun h0 => absurd h0 (by omega)⟩, fun _ => rfl⟩
    by_cases hm : mode = "warn" <;> simp [hm] at hcontra
  · rw [if_neg h]
    refine ⟨⟨fun _ => by omega, fun _ => rfl⟩, fun h0 => absurd (by omega) h0⟩

theorem total_unknown_eq_zero_iff (comps : List ComparisonResult) :
    total_unknown comps = 0 ↔ ∀ c ∈ comps, c.unknown_diffs = [] := by
  unfold total_unknown
  rw [List.sum_eq_zero_iff]
  constructor
  · intro h c hc
    exact List.length_eq_zero.mp (h c.unknown_diffs.length (List.mem_map_of_mem _ hc))
  · intro h x hx
    obtain ⟨c, hc, rfl⟩ := List.mem_map.mp hx
    rw [h c hc]
    rfl

theorem mem_runComparisons (mode : String) (rules : List KnownDivergence)
    (baseline : String × Signature) (sigs : List (String × Signature))
    (c : ComparisonResult) (hc : c ∈ runComparisons mode rules baseline sigs) :
    ∃ p, c = mkComparison mode rules baseline p := by
  obtain ⟨p, _, hp⟩ := List.mem_map.mp hc
  exact ⟨p, hp.symm⟩

/-- C3: each comparison's status is pass iff its unknown diff list is
empty and otherwise warn in warn mode / fail otherwise; the overall
status is pass iff every comparison passes, equivalently iff the total
number of unknown diffs is zero, and otherwise warn or fail per the
same mode; hence the overall status is never better (lower severity)
than any individual comparison's status. -/
theorem status_aggregation (mode : String) (rules : List KnownDivergence)
    (baseline : String × Signature) (sigs : List (String × Signature))
    (comps : List ComparisonResult)
    (hcomps : comps = runComparisons mode rules baseline sigs) :
    (∀ c ∈ comps,
        (c.status = "pass" ↔ c.unknown_diffs = []) ∧
        (c.unknown_diffs ≠ [] →
          c.status = if mode = "warn" then "warn" else "fail")) ∧
    (overall_status mode comps = "pass" ↔ total_unknown comps = 0) ∧
    (overall_status mode comps = "pass" ↔ ∀ c ∈ comps, c.status = "pass") ∧
    (total_unknown comps ≠ 0 →
        overall_status mode comps = if mode = "warn" then "warn" else "fail") ∧
    (∀ c ∈ comps, statusRank c.status ≤ statusRank (overall_status mode comps)) := by
  have hper : ∀ c ∈ comps,
      (c.status = "pass" ↔ c.unknown_diffs = []) ∧
      (c.unknown_diffs ≠ [] →
        c.status = if mode = "warn" then "warn" else "fail") := by
    intro c hc
    obtain ⟨p, rfl⟩ := mem_runComparisons mode rules baseline sigs c (hcomps ▸ hc)
    exact comparison_status_spec mode rules baseline p
  refine ⟨hper, (overall_status_spec mode comps).1, ?_, (overall_status_spec mode comps).2, ?_⟩
  · rw [(overall_status_spec mode comps).1, total_unknown_eq_zero_iff]
    constructor
    · intro h c hc
      exact ((hper c hc).1).mpr (h c hc)
    · intro h c hc
      exact ((hper c hc).1).mp (h c hc)
  · intro c hc
    by_cases h0 : total_unknown comps = 0
    · have hcu : c.unknown_diffs = [] :=
        (total_unknown_eq_zero_iff comps).mp h0 c hc
      have : c.status = "pass" := ((hper c hc).1).mpr hcu
      rw [this]
      exact Nat.zero_le _
    · rw [(overall_status_spec mode comps).2 h0]
      by_cases hcu : c.unknown_diffs = []
      · rw [((hper c hc).1).mpr hcu]
        exact Nat.zero_le _
      · rw [(hper c hc).2 hcu]

/-- A baseline signature for the aggregation witness. -/
def c3SigA : Signature :=
  { run_end := { status := "ok", outcome := "resize_storm_complete", frames := 1,
                 checksum_chain := "cc", output_sha256 := "oh" }
    resize_inputs := [{ cols := 80, rows := 24, hash_key := "k" }]
    frames := [{ cols := 80, rows := 24, frame_hash := "fh", hash_key := "k" }]
    geometry_sequence := ["80x24"] }

/-- A target signature diverging from c3SigA by a duplicated resize
input. -/
def c3SigB : Signature :=
  { run_end := { status := "ok", outcome := "resize_storm_complete", frames := 1,
                 checksum_chain := "cc", output_sha256 := "oh" }
    resize_inputs := [{ cols := 80, rows := 24, hash_key := "k" },
                      { cols := 80, rows := 24, hash_key := "k" }]
    frames := [{ cols := 80, rows := 24, frame_hash := "fh", hash_key := "k" }]
    geometry_sequence := ["80x24"] }

/-- The comparisons of a concrete warn-mode run with one diverging
target and no rules. -/
def c3Comps : List ComparisonResult :=
  runComparisons "warn" [] ("base", c3SigA) [("base", c3SigA), ("tgt", c3SigB)]

/-- C3 witness: on the concrete warn-mode run, the overall status is
pass iff no unknown diff exists (it is not: the run yields warn), and
the diverging comparison's severity does not exceed the overall one. -/
theorem status_aggregation_witness :
    (overall_status "warn" c3Comps = "pass" ↔ total_unknown c3Comps = 0) ∧
    overall_status "warn" c3Comps = "warn" ∧
    statusRank (mkComparison "warn" [] ("base", c3SigA) ("tgt", c3SigB)).status ≤
      statusRank (overall_status "warn" c3Comps) :=
  have h := status_aggregation "warn" [] ("base", c3SigA)
    [("base", c3SigA), ("tgt", c3SigB)] c3Comps rfl
  ⟨h.2.1, h.2.2.2.1 (by decide),
   h.2.2.2.2 (mkComparison "warn" [] ("base", c3SigA) ("tgt", c3SigB)) (by decide)⟩

/-- Position of a diff class in the fixed emission order of
compare_signatures.  The two per-index resize checks interleave per
index, so they share one phase. -/
def classRank : String → Nat
  | "run_end_mismatch" => 0
  | "resize_inputs_length" => 1
  | "resize_input_geometry" => 2
  | "resize_input_hash_key" => 2
  | "geometry_sequence_length" => 3
  | "geometry_sequence_value" => 4
  | "frame_count" => 5
  | "final_frame_geometry" => 6
  | "final_frame_hash_key" => 7
  | _ => 8

theorem mem_if_singleton {α : Type} {c : Prop} [Decidable c] {x d : α}
    (h : d ∈ (if c then [x] else [])) : d = x := by
  by_cases hc : c
  · rw [if_pos hc] at h
    exact List.mem_singleton.mp h
  · rw [if_neg hc] at h
    exact absurd h (List.not_mem_nil d)

theorem runEndDiffs_mem (b t : Signature) :
    ∀ d ∈ runEndDiffs b t,
      d.class_name = "run_end_mismatch" ∧
        (d.path = "run_end.status" ∨ d.path = "run_end.outcome" ∨
          d.path = "run_end.frames") := by
  intro d hd
  simp only [runEndDiffs, List.mem_append] at hd
  rcases hd with (hd | hd) | hd <;> rw [mem_if_singleton hd] <;> simp

theorem resizeIndexDiffs_mem (ls : List ResizeInput) :
    ∀ (idx : Nat) (rs : List ResizeInput) (d : Diff),
      d ∈ resizeIndexDiffs idx ls rs →
      ∃ i, idx ≤ i ∧ i < idx + min ls.length rs.length ∧
        ((d.class_name = "resize_input_geometry" ∧
            d.path = "resize_inputs[" ++ natRepr i ++ "].cols_rows") ∨
         (d.class_name = "resize_input_hash_key" ∧
            d.path = "resize_inputs[" ++ natRepr i ++ "].hash_key")) := by
  induction ls with
  | nil => intro idx rs d hd; simp [resizeIndexDiffs] at hd
  | cons l ls ih =>
      intro idx rs d hd
      cases rs with
      | nil => simp [resizeIndexDiffs] at hd
      | cons r rs =>
          simp only [resizeIndexDiffs, List.mem_append] at hd
          rcases hd with (hd | hd) | hd
          · rw [mem_if_singleton hd]
            refine ⟨idx, le_refl idx, ?_, Or.inl ⟨rfl, rfl⟩⟩
            simp only [List.length_cons]
            omega
          · rw [mem_if_singleton hd]
            refine ⟨idx, le_refl idx, ?_, Or.inr ⟨rfl, rfl⟩⟩
            simp only [List.length_cons]
            omega
          · obtain ⟨i, h1, h2, h3⟩ := ih (idx + 1) rs d hd
            refine ⟨i, by omega, ?_, h3⟩
            simp only [List.length_cons]
            omega

theorem geometryIndexDiffs_mem (ls : List String) :
    ∀ (idx : Nat) (rs : List String) (d : Diff),
      d ∈ geometryIndexDiffs idx ls rs →
      ∃ i, idx ≤ i ∧ i < idx + min ls.length rs.length ∧
        d.class_name = "geometry_sequence_value" ∧
        d.path = "geometry_sequence[" ++ natRepr i ++ "]" := by
  induction ls with
  | nil => intro idx rs d hd; simp [geometryIndexDiffs] at hd
  | cons l ls ih =>
      intro idx rs d hd
      cases rs with
      | nil => simp [geometryIndexDiffs] at hd
      | cons r rs =>
          simp only [geometryIndexDiffs, List.mem_append] at hd
          rcases hd with hd | hd
          · rw [mem_if_singleton hd]
            refine ⟨idx, le_refl idx, ?_, rfl, rfl⟩
            simp only [List.length_cons]
            omega
          · obtain ⟨i, h1, h2, h3⟩ := ih (idx + 1) rs d hd
            refine ⟨i, by omega, ?_, h3⟩
            simp only [List.length_cons]
            omega

theorem frameCountDiffs_mem (b t : Signature) :
    ∀ d ∈ frameCountDiffs b t,
      d.class_name = "frame_count" ∧ d.path = "frames.length" := by
  intro d hd
  unfold frameCountDiffs at hd
  rw [mem_if_singleton hd]
  exact ⟨rfl, rfl⟩

theorem finalFrameDiffs_mem (b t : Signature) :
    ∀ d ∈ finalFrameDiffs b t,
      (d.class_name = "final_frame_geometry" ∧ d.path = "frames[-1].cols_rows") ∨
      (d.class_name = "final_frame_hash_key" ∧ d.path = "frames[-1].hash_key") := by
  intro d hd
  unfold finalFrameDiffs at hd
  cases hb : b.frames.getLast? with
  | none => rw [hb] at hd; simp at hd
  | some bl =>
      cases ht : t.frames.getLast? with
      | none => rw [hb, ht] at hd; simp at hd
      | some tl =>
          rw [hb, ht] at hd
          simp only [List.mem_append] at hd
          rcases hd with hd | hd <;> rw [mem_if_singleton hd] <;> simp

theorem runEndDiffs_rank (b t : Signature) :
    ∀ d ∈ runEndDiffs b t, classRank d.class_name = 0 := by
  intro d hd
  rw [(runEndDiffs_mem b t d hd).1]
  decide

theorem resizeDiffs_rank (b t : Signature) :
    ∀ d ∈ resizeDiffs b t,
      1 ≤ classRank d.class_name ∧ classRank d.class_name ≤ 2 := by
  intro d hd
  simp only [resizeDiffs, List.mem_append] at hd
  rcases hd with hd | hd
  · have hc : d.class_name = "resize_inputs_length" := by rw [mem_if_singleton hd]
    rw [hc]
    exact ⟨by decide, by decide⟩
  · obtain ⟨i, _, _, h3⟩ := resizeIndexDiffs_mem b.resize_inputs 0 t.resize_inputs d hd
    rcases h3 with ⟨hc, _⟩ | ⟨hc, _⟩ <;> rw [hc] <;> exact ⟨by decide, by decide⟩

theorem geometryDiffs_rank (b t : Signature) :
    ∀ d ∈ geometryDiffs b t,
      3 ≤ classRank d.class_name ∧ classRank d.class_name ≤ 4 := by
  intro d hd
  simp only [geometryDiffs, List.mem_append] at hd
  rcases hd with hd | hd
  · have hc : d.class_name = "geometry_sequence_length" := by rw [mem_if_singleton hd]
    rw [hc]
    exact ⟨by decide, by decide⟩
  · obtain ⟨i, _, _, hc, _⟩ :=
      geometryIndexDiffs_mem b.geometry_sequence 0 t.geometry_sequence d hd
    rw [hc]
    exact ⟨by decide, by decide⟩

theorem frameCountDiffs_rank (b t : Signature) :
    ∀ d ∈ frameCountDiffs b t, classRank d.class_name = 5 := by
  intro d hd
  rw [(frameCountDiffs_mem b t d hd).1]
  decide

theorem finalFrameDiffs_rank (b t : Signature) :
    ∀ d ∈ finalFrameDiffs b t,
      6 ≤ classRank d.class_name ∧ classRank d.class_name ≤ 7 := by
  intro d hd
  rcases finalFrameDiffs_mem b t d hd with ⟨hc, _⟩ | ⟨hc, _⟩ <;> rw [hc] <;>
    exact ⟨by decide, by decide⟩

theorem sorted_map_of_const {α : Type} (f : α → Nat) (n : Nat) :
    ∀ l : List α, (∀ a ∈ l, f a = n) → List.Sorted (· ≤ ·) (l.map f) := by
  intro l
  induction l with
  | nil => intro _; simp
  | cons a as ih =>
      intro h
      rw [List.map_cons, List.sorted_cons]
      constructor
      · intro x hx
        obtain ⟨c, hc, rfl⟩ := List.mem_map.mp hx
        rw [h a (by simp), h c (by simp [hc])]
      · exact ih (fun x hx => h x (by simp [hx]))

theorem sorted_map_append {α : Type} (f : α → Nat) (l1 l2 : List α)
    (h1 : List.Sorted (· ≤ ·) (l1.map f))
    (h2 : List.Sorted (· ≤ ·) (l2.map f))
    (hc : ∀ a ∈ l1, ∀ c ∈ l2, f a ≤ f c) :
    List.Sorted (· ≤ ·) ((l1 ++ l2).map f) := by
  rw [List.map_append]
  refine List.pairwise_append.mpr ⟨h1, h2, ?_⟩
  intro x hx y hy
  obtain ⟨a, ha, rfl⟩ := List.mem_map.mp hx
  obtain ⟨c, hc2, rfl⟩ := List.mem_map.mp hy
  exact hc a ha c hc2

theorem runEndDiffs_sorted (b t : Signature) :
    List.Sorted (· ≤ ·) ((runEndDiffs b t).map (fun d => classRank d.class_name)) :=
  sorted_map_of_const _ 0 _ (runEndDiffs_rank b t)

theorem resizeDiffs_sorted (b t : Signature) :
    List.Sorted (· ≤ ·) ((resizeDiffs b t).map (fun d => classRank d.class_name)) := by
  unfold resizeDiffs
  refine sorted_map_append _ _ _ ?_ ?_ ?_
  · refine sorted_map_of_const _ 1 _ ?_
    intro a ha
    have ha2 : a.class_name = "resize_inputs_length" := by rw [mem_if_singleton ha]
    simp only [ha2]
    decide
  · refine sorted_map_of_const _ 2 _ ?_
    intro a ha
    obtain ⟨i, _, _, h3⟩ := resizeIndexDiffs_mem b.resize_inputs 0 t.resize_inputs a ha
    rcases h3 with ⟨hc, _⟩ | ⟨hc, _⟩ <;> simp only [hc] <;> decide
  · intro a ha c hc
    have ha2 : a.class_name = "resize_inputs_length" := by rw [mem_if_singleton ha]
    obtain ⟨i, _, _, h3⟩ := resizeIndexDiffs_mem b.resize_inputs 0 t.resize_inputs c hc
    simp only [ha2]
    rcases h3 with ⟨hcc, _⟩ | ⟨hcc, _⟩ <;> simp only [hcc] <;> decide

theorem geometryDiffs_sorted (b t : Signature) :
    List.Sorted (· ≤ ·) ((geometryDiffs b t).map (fun d => classRank d.class_name)) := by
  unfold geometryDiffs
  refine sorted_map_append _ _ _ ?_ ?_ ?_
  · refine sorted_map_of_const _ 3 _ ?_
    intro a ha
    have ha2 : a.class_name = "geometry_sequence_length" := by rw [mem_if_singleton ha]
    simp only [ha2]
    decide
  · refine sorted_map_of_const _ 4 _ ?_
    intro a ha
    obtain ⟨i, _, _, hc, _⟩ :=
      geometryIndexDiffs_mem b.geometry_sequence 0 t.geometry_sequence a ha
    simp only [hc]
    decide
  · intro a ha c hc
    have ha2 : a.class_name = "geometry_sequence_length" := by rw [mem_if_singleton ha]
    obtain ⟨i, _, _, hcc, _⟩ :=
      geometryIndexDiffs_mem b.geometry_sequence 0 t.geometry_sequence c hc
    simp only [ha2, hcc]
    decide

theorem frameCountDiffs_sorted (b t : Signature) :
    List.Sorted (· ≤ ·) ((frameCountDiffs b t).map (fun d => classRank d.class_name)) :=
  sorted_map_of_const _ 5 _ (frameCountDiffs_rank b t)

theorem finalFrameDiffs_sorted (b t : Signature) :
    List.Sorted (· ≤ ·) ((finalFrameDiffs b t).map (fun d => classRank d.class_name)) := by
  unfold finalFrameDiffs
  cases b.frames.getLast? with
  | none => simp
  | some bl =>
      cases t.frames.getLast? with
      | none => simp
      | some tl =>
          refine sorted_map_append _ _ _ ?_ ?_ ?_
          · refine sorted_map_of_const _ 6 _ ?_
            intro a ha
            have ha2 : a.class_name = "final_frame_geometry" := by
              rw [mem_if_singleton ha]
            simp only [ha2]
            decide
          · refine sorted_map_of_const _ 7 _ ?_
            intro a ha
            have ha2 : a.class_name = "final_frame_hash_key" := by
              rw [mem_if_singleton ha]
            simp only [ha2]
            decide
          · intro a ha c hc
            have ha2 : a.class_name = "final_frame_geometry" := by
              rw [mem_if_singleton ha]
            have hc2 : c.class_name = "final_frame_hash_key" := by
              rw [mem_if_singleton hc]
            simp only [ha2, hc2]
            decide

/-- The complete emission surface of compare_signatures: the class and
path shapes the diff engine can produce.  Per-index paths are confined
to the overlapping prefix, and the only frame-related diffs are the
single frames.length count diff and the two final-frame diffs — there
is no shape for an intermediate frame's content. -/
def diffShape (b t : Signature) (d : Diff) : Prop :=
  (d.class_name = "run_end_mismatch" ∧
    (d.path = "run_end.status" ∨ d.path = "run_end.outcome" ∨
      d.path = "run_end.frames")) ∨
  (d.class_name = "resize_inputs_length" ∧ d.path = "resize_inputs.length") ∨
  (∃ i, i < min b.resize_inputs.length t.resize_inputs.length ∧
    ((d.class_name = "resize_input_geometry" ∧
        d.path = "resize_inputs[" ++ natRepr i ++ "].cols_rows") ∨
     (d.class_name = "resize_input_hash_key" ∧
        d.path = "resize_inputs[" ++ natRepr i ++ "].hash_key"))) ∨
  (d.class_name = "geometry_sequence_length" ∧
    d.path = "geometry_sequence.length") ∨
  (∃ i, i < min b.geometry_sequence.length t.geometry_sequence.length ∧
    d.class_name = "geometry_sequence_value" ∧
    d.path = "geometry_sequence[" ++ natRepr i ++ "]") ∨
  (d.class_name = "frame_count" ∧ d.path = "frames.length") ∨
  (d.class_name = "final_frame_geometry" ∧ d.path = "frames[-1].cols_rows") ∨
  (d.class_name = "final_frame_hash_key" ∧ d.path = "frames[-1].hash_key")

/-- C8: compare_signatures emits diffs in the fixed deterministic order
run_end scalars, resize_inputs (length then per-index over the
overlapping prefix), geometry_sequence (length then per-index), frames
length, final frame — the phase rank of the emitted diff classes is
monotone along the output — and every emitted diff has one of the
shapes of diffShape: for frames only the frames.length count diff
(class frame_count) and the two final-frame diffs exist, so no diff
about an intermediate frame's content is ever produced. -/
theorem compare_signatures_order_and_surface (b t : Signature) :
    List.Sorted (· ≤ ·)
      ((compare_signatures b t).map (fun d => classRank d.class_name)) ∧
    ∀ d ∈ compare_signatures b t, diffShape b t d := by
  have hboundAB : ∀ a ∈ runEndDiffs b t ++ resizeDiffs b t,
      classRank a.class_name ≤ 2 := by
    intro a ha
    simp only [List.mem_append] at ha
    rcases ha with ha | ha
    · rw [runEndDiffs_rank b t a ha]
      omega
    · exact (resizeDiffs_rank b t a ha).2
  have hboundABC : ∀ a ∈ runEndDiffs b t ++ resizeDiffs b t ++ geometryDiffs b t,
      classRank a.class_name ≤ 4 := by
    intro a ha
    simp only [List.mem_append] at ha
    rcases ha with (ha | ha) | ha
    · rw [runEndDiffs_rank b t a ha]
      omega
    · have := (resizeDiffs_rank b t a ha).2
      omega
    · exact (geometryDiffs_rank b t a ha).2
  have hboundABCD : ∀ a ∈ runEndDiffs b t ++ resizeDiffs b t ++
      geometryDiffs b t ++ frameCountDiffs b t, classRank a.class_name ≤ 5 := by
    intro a ha
    simp only [List.mem_append] at ha
    rcases ha with ((ha | ha) | ha) | ha
    · rw [runEndDiffs_rank b t a ha]
      omega
    · have := (resizeDiffs_rank b t a ha).2
      omega
    · have := (geometryDiffs_rank b t a ha).2
      omega
    · rw [frameCountDiffs_rank b t a ha]
  constructor
  · unfold compare_signatures
    have hAB := sorted_map_append (fun d => classRank d.class_name)
      (runEndDiffs b t) (resizeDiffs b t)
      (runEndDiffs_sorted b t) (resizeDiffs_sorted b t)
      (fun a ha c _ => by
        show classRank a.class_name ≤ classRank c.class_name
        rw [runEndDiffs_rank b t a ha]
        exact Nat.zero_le _)
    have hABC := sorted_map_append (fun d => classRank d.class_name)
      (runEndDiffs b t ++ resizeDiffs b t) (geometryDiffs b t)
      hAB (geometryDiffs_sorted b t)
      (fun a ha c hc => by
        show classRank a.class_name ≤ classRank c.class_name
        have h1 := hboundAB a ha
        have h2 := (geometryDiffs_rank b t c hc).1
        omega)
    have hABCD := sorted_map_append (fun d => classRank d.class_name)
      (runEndDiffs b t ++ resizeDiffs b t ++ geometryDiffs b t)
      (frameCountDiffs b t)
      hABC (frameCountDiffs_sorted b t)
      (fun a ha c hc => by
        show classRank a.class_name ≤ classRank c.class_name
        have h1 := hboundABC a ha
        rw [frameCountDiffs_rank b t c hc]
        omega)
    exact sorted_map_append (fun d => classRank d.class_name)
      (runEndDiffs b t ++ resizeDiffs b t ++ geometryDiffs b t ++
        frameCountDiffs b t)
      (finalFrameDiffs b t)
      hABCD (finalFrameDiffs_sorted b t)
      (fun a ha c hc => by
        show classRank a.class_name ≤ classRank c.class_name
        have h1 := hboundABCD a ha
        have h2 := (finalFrameDiffs_rank b t c hc).1
        omega)
  · intro d hd
    unfold compare_signatures at hd
    simp only [List.mem_append] at hd
    rcases hd with (((hd | hd) | hd) | hd) | hd
    · exact Or.inl (runEndDiffs_mem b t d hd)
    · simp only [resizeDiffs, List.mem_append] at hd
      rcases hd with hd | hd
      · refine Or.inr (Or.inl ?_)
        have hc : d.class_name = "resize_inputs_length" := by
          rw [mem_if_singleton hd]
        have hp : d.path = "resize_inputs.length" := by
          rw [mem_if_singleton hd]
        exact ⟨hc, hp⟩
      · refine Or.inr (Or.inr (Or.inl ?_))
        obtain ⟨i, _, h2, h3⟩ :=
          resizeIndexDiffs_mem b.resize_inputs 0 t.resize_inputs d hd
        exact ⟨i, by omega, h3⟩
    · simp only [geometryDiffs, List.mem_append] at hd
      rcases hd with hd | hd
      · refine Or.inr (Or.inr (Or.inr (Or.inl ?_)))
        have hc : d.class_name = "geometry_sequence_length" := by
          rw [mem_if_singleton hd]
        have hp : d.path = "geometry_sequence.length" := by
          rw [mem_if_singleton hd]
        exact ⟨hc, hp⟩
      · refine Or.inr (Or.inr (Or.inr (Or.inr (Or.inl ?_))))
        obtain ⟨i, _, h2, h3, h4⟩ :=
          geometryIndexDiffs_mem b.geometry_sequence 0 t.geometry_sequence d hd
        exact ⟨i, by omega, h3, h4⟩
    · exact Or.inr (Or.inr (Or.inr (Or.inr (Or.inr (Or.inl
        (frameCountDiffs_mem b t d hd))))))
    · rcases finalFrameDiffs_mem b t d hd with h | h
      · exact Or.inr (Or.inr (Or.inr (Or.inr (Or.inr (Or.inr (Or.inl h))))))
      · exact Or.inr (Or.inr (Or.inr (Or.inr (Or.inr (Or.inr (Or.inr h))))))

/-- A baseline signature for the diff-engine surface witness. -/
def c8SigA : Signature :=
  { run_end := { status := "ok", outcome := "resize_storm_complete", frames := 1,
                 checksum_chain := "cc", output_sha256 := "oh" }
    resize_inputs := []
    frames := [{ cols := 80, rows := 24, frame_hash := "f1", hash_key := "k1" }]
    geometry_sequence := ["80x24"] }

/-- A target signature with one extra frame and a different final
frame. -/
def c8SigB : Signature :=
  { run_end := { status := "ok", outcome := "resize_storm_complete", frames := 1,
                 checksum_chain := "cc", output_sha256 := "oh" }
    resize_inputs := []
    frames := [{ cols := 80, rows := 24, frame_hash := "f1", hash_key := "k1" },
               { cols := 100, rows := 30, frame_hash := "f2", hash_key := "k2" }]
    geometry_sequence := ["80x24", "100x30"] }

/-- C8 witness: on a concrete diverging pair, the emitted rank sequence
is monotone, and the concrete frame-count diff that the pair produces
has one of the allowed shapes. -/
theorem compare_signatures_order_and_surface_witness :
    List.Sorted (· ≤ ·)
      ((compare_signatures c8SigA c8SigB).map (fun d => classRank d.class_name)) ∧
    diffShape c8SigA c8SigB
      { class_name := "frame_count", path := "frames.length",
        expected := DVal.i 1, actual := DVal.i 2,
        details := "frame event count diverged" } :=
  ⟨(compare_signatures_order_and_surface c8SigA c8SigB).1,
   (compare_signatures_order_and_surface c8SigA c8SigB).2
     { class_name := "frame_count", path := "frames.length",
       expected := DVal.i 1, actual := DVal.i 2,
       details := "frame event count diverged" } (by decide)⟩

end ResizeStorm
